import Mathlib

/-!
Verification of the rate-limit admission-control core (src/src/index.ts).

The development shallowly embeds the plugin logic: sessions, the scope key
deriver (getRecordKey), the usage-record store (a JS Map modelled as a
function from keys to optional records), the per-call rate-limit check
(checkRateLimit), the rule resolver (getEffectiveAction over a map built
from the configured CommandFilterRule list), and the before-execute hook
(beforeExecute, walking the resolved command chain).

JS-specific behaviour is modelled explicitly: number truthiness (0 is
falsy), `undefined` as `none`, `undefined--` producing NaN (JsNum), string
interpolation of `undefined`, and Math.ceil as ceilDiv.  Timestamps are
integers (milliseconds); the computation of the next local midnight
(`tomorrow.setHours(24,0,0,0)`) is abstracted as a function parameter
`nextMidnight : Int -> Int`.
-/

namespace RateLimit

/-- Scope of a rate limit: `'platform' | 'channel' | 'user'`. -/
inductive Scope where
  | platform : Scope
  | channel : Scope
  | user : Scope
deriving DecidableEq

/-- Action applied to a user or channel: `'block' | 'limit' | 'ignore'`. -/
inductive Action where
  | block : Action
  | limit : Action
  | ignore : Action
deriving DecidableEq

/-- A JavaScript number restricted to the values this program can produce
in the `dailyUsesLeft` field: an integer or NaN (from `undefined--`). -/
inductive JsNum where
  | nan : JsNum
  | int : Int → JsNum
deriving DecidableEq

/-- `UsageRecord`: per (scope, identifier, command) usage state.  Absent
fields are `none` (JS `undefined`). -/
structure UsageRecord where
  cooldownExpiresAt : Option Int := none
  dailyUsesLeft : Option JsNum := none
  dailyResetAt : Option Int := none
deriving DecidableEq

/-- The identity context exposed by the host session.  Any of the three
identifiers may be unavailable (`undefined`). -/
structure Session where
  userId : Option String
  channelId : Option String
  platform : Option String
deriving DecidableEq

/-- Type selector of a `CommandFilterRule`: `'user' | 'channel'`. -/
inductive RuleType where
  | user : RuleType
  | channel : RuleType
deriving DecidableEq

/-- Action of a `CommandFilterRule`: `'block' | 'ignore'`. -/
inductive FilterAction where
  | block : FilterAction
  | ignore : FilterAction
deriving DecidableEq

/-- A configured exception rule (`commandRules` entry). -/
structure CommandFilterRule where
  type : RuleType
  content : String
  action : FilterAction
deriving DecidableEq

/-- One level of the command chain, with its three configuration values
already resolved against the current session (the host resolves
`Computed` values per invocation). -/
structure CmdLevel where
  name : String
  minInterval : Int
  maxDayUsage : Int
  scope : Scope
deriving DecidableEq

def FilterAction.toAction : FilterAction → Action
  | FilterAction.block => Action.block
  | FilterAction.ignore => Action.ignore

def RuleType.str : RuleType → String
  | RuleType.user => "user"
  | RuleType.channel => "channel"

def Scope.str : Scope → String
  | Scope.platform => "platform"
  | Scope.channel => "channel"
  | Scope.user => "user"

/-- The `commandRecords` map: JS `Map<string, UsageRecord>` modelled by its
lookup function. -/
abbrev Store := String → Option UsageRecord

/-- The `rules` map: JS `Map<string, Action>` modelled by its lookup
function. -/
abbrev RulesMap := String → Option Action

/-- The empty JS map. -/
def mapEmpty {α : Type} : String → Option α := fun _ => none

/-- JS `Map.prototype.set`: later writes to the same key overwrite. -/
def mapSet {α : Type} (m : String → Option α) (k : String) (v : α) :
    String → Option α :=
  fun q => if q = k then some v else m q

/-- String interpolation of a possibly-undefined value: `${undefined}`
yields the string `"undefined"`. -/
def jsShow : Option String → String
  | none => "undefined"
  | some s => s

/-- `Math.ceil(a / b)` for integer `a` and positive integer `b`. -/
def ceilDiv (a b : Int) : Int := -((-a).fdiv b)

/-- JS decrement on a possibly-undefined number: `undefined--` and
`NaN--` give NaN, an integer decrements. -/
def jsDec : Option JsNum → Option JsNum
  | some (JsNum.int n) => some (JsNum.int (n - 1))
  | _ => some JsNum.nan

/-- JS comparison `x <= 0` on a possibly-undefined number: comparisons
against `undefined` or NaN are false. -/
def jsLeZero : Option JsNum → Bool
  | some (JsNum.int n) => decide (n ≤ 0)
  | _ => false

/-- The denial message of the daily-quota check. -/
def quotaMsg : String := "使用已达上限，请明日再试"

/-- The denial message of the cooldown check, carrying the remaining
seconds (rounded up). -/
def cooldownMsg (remaining : Int) : String :=
  "操作过于频繁，请 " ++ toString remaining ++ " 秒后重试"

/-- `getRecordKey` (index.ts line 110): derive the record key for a scope
from the session; `undefined` when the session lacks the field. -/
def getRecordKey (session : Session) (scope : Scope) : Option String :=
  match scope with
  | Scope.user => session.userId
  | Scope.channel => session.channelId
  | Scope.platform => session.platform

/-- The composite record identifier `` `${scope}:${key}:${commandName}` ``
(index.ts line 132). -/
def recId (scope : Scope) (key commandName : String) : String :=
  scope.str ++ ":" ++ key ++ ":" ++ commandName

/-- The cooldown test (index.ts line 137):
`minInterval > 0 && record.cooldownExpiresAt && record.cooldownExpiresAt > now`.
A JS number is truthy when non-zero. -/
def cooldownHit (record : UsageRecord) (minInterval now : Int) : Bool :=
  decide (0 < minInterval) &&
    match record.cooldownExpiresAt with
    | none => false
    | some e => e != 0 && decide (now < e)

/-- The daily-window reset test (index.ts line 144):
`!record.dailyResetAt || now > record.dailyResetAt`. -/
def resetDue (record : UsageRecord) (now : Int) : Bool :=
  match record.dailyResetAt with
  | none => true
  | some d => d == 0 || decide (d < now)

/-- The daily-window lazy reset (index.ts lines 144-149): when due, set
the deadline to the next local midnight and the remaining uses to
`maxDayUsage`. -/
def quotaReset (record : UsageRecord) (maxDayUsage now : Int)
    (nextMidnight : Int → Int) : UsageRecord :=
  if 0 < maxDayUsage then
    if resetDue record now then
      { record with
          dailyResetAt := some (nextMidnight now)
          dailyUsesLeft := some (JsNum.int maxDayUsage) }
    else record
  else record

/-- Record update on an admitted call, cooldown part (index.ts line 154):
`if (minInterval > 0) record.cooldownExpiresAt = now + minInterval * 1000`. -/
def commitCooldown (record : UsageRecord) (minInterval now : Int) :
    UsageRecord :=
  if 0 < minInterval then
    { record with cooldownExpiresAt := some (now + minInterval * 1000) }
  else record

/-- Record update on an admitted call, quota part (index.ts line 155):
`if (maxDayUsage > 0) record.dailyUsesLeft--`. -/
def commitDaily (record : UsageRecord) (maxDayUsage : Int) : UsageRecord :=
  if 0 < maxDayUsage then
    { record with dailyUsesLeft := jsDec record.dailyUsesLeft }
  else record

/-- `checkRateLimit` (index.ts lines 128-158).  Returns the denial hint (or
`none`) together with the updated store.  In the source the record object
fetched from the map is mutated in place; on the quota-denial path the
(possibly reset) record is therefore visible in the map exactly when the
record already existed there, which the `isSome` guard reproduces. -/
def checkRateLimit (commandRecords : Store) (session : Session)
    (commandName : String) (scope : Scope) (minInterval maxDayUsage : Int)
    (now : Int) (nextMidnight : Int → Int) : Option String × Store :=
  match getRecordKey session scope with
  | none => (none, commandRecords)
  | some key =>
    if key = "" then (none, commandRecords)
    else
      let recordId := recId scope key commandName
      let record := (commandRecords recordId).getD {}
      if cooldownHit record minInterval now then
        (some (cooldownMsg
          (ceilDiv (record.cooldownExpiresAt.getD 0 - now) 1000)),
         commandRecords)
      else
        let record1 := quotaReset record maxDayUsage now nextMidnight
        if 0 < maxDayUsage ∧ jsLeZero record1.dailyUsesLeft then
          (some quotaMsg,
           if (commandRecords recordId).isSome then
             mapSet commandRecords recordId record1
           else commandRecords)
        else
          (none,
           mapSet commandRecords recordId
             (commitDaily (commitCooldown record1 minInterval now)
               maxDayUsage))

/-- `getEffectiveAction` (index.ts lines 165-169): user rule, else channel
rule, else `'limit'`. -/
def getEffectiveAction (rules : RulesMap) (session : Session) : Action :=
  match rules ("user:" ++ jsShow session.userId) with
  | some a => a
  | none =>
    match rules ("channel:" ++ jsShow session.channelId) with
    | some a => a
    | none => Action.limit

/-- The key under which a filter rule is stored:
`` `${rule.type}:${rule.content}` `` (index.ts line 91). -/
def ruleKey (r : CommandFilterRule) : String :=
  r.type.str ++ ":" ++ r.content

/-- Build the `rules` map from the configured list (index.ts line 91);
later entries for the same key overwrite earlier ones. -/
def buildRules (l : List CommandFilterRule) : RulesMap :=
  l.foldl (fun m r => mapSet m (ruleKey r) r.action.toAction) mapEmpty

/-- `cmd.name.replace(/\./g, ':')` (index.ts line 188). -/
def replaceDots (s : String) : String :=
  String.mk (s.data.map (fun c => if c = '.' then ':' else c))

/-- The command-chain walk inside the `before('command/execute')` hook
(index.ts lines 182-193).  A level whose resolved `minInterval` and
`maxDayUsage` are both falsy is skipped; otherwise `checkRateLimit` runs
and a truthy (non-empty) result returns the hint or the empty string
according to `sendHint`.  An admitted call falls through to the parent. -/
def walkChain (sendHint : Bool) (store : Store) (session : Session)
    (chain : List CmdLevel) (now : Int) (nextMidnight : Int → Int) :
    Option String × Store :=
  match chain with
  | [] => (none, store)
  | cmd :: rest =>
    if cmd.minInterval = 0 ∧ cmd.maxDayUsage = 0 then
      walkChain sendHint store session rest now nextMidnight
    else
      match checkRateLimit store session (replaceDots cmd.name) cmd.scope
        cmd.minInterval cmd.maxDayUsage now nextMidnight with
      | (some msg, store1) =>
        if msg = "" then walkChain sendHint store1 session rest now nextMidnight
        else (some (if sendHint then msg else ""), store1)
      | (none, store1) => walkChain sendHint store1 session rest now nextMidnight

/-- The `before('command/execute')` hook (index.ts lines 172-194):
`'ignore'` allows unconditionally, `'block'` denies silently, otherwise
the chain walk decides. -/
def beforeExecute (sendHint : Bool) (rules : RulesMap) (store : Store)
    (session : Session) (chain : List CmdLevel) (now : Int)
    (nextMidnight : Int → Int) : Option String × Store :=
  match getEffectiveAction rules session with
  | Action.ignore => (none, store)
  | Action.block => (some "", store)
  | Action.limit => walkChain sendHint store session chain now nextMidnight

/-- A sequence of calls to `checkRateLimit` with fixed parameters at the
given times, threading the store and collecting the results. -/
def runCalls (nextMidnight : Int → Int) (session : Session)
    (commandName : String) (scope : Scope) (minInterval maxDayUsage : Int) :
    Store → List Int → List (Option String) × Store
  | store, [] => ([], store)
  | store, t :: ts =>
    let res := checkRateLimit store session commandName scope minInterval
      maxDayUsage t nextMidnight
    let rest := runCalls nextMidnight session commandName scope minInterval
      maxDayUsage res.2 ts
    (res.1 :: rest.1, rest.2)

/-- One invocation processed by the hook: a session, the resolved command
chain, and the current time. -/
structure Invocation where
  session : Session
  chain : List CmdLevel
  now : Int

/-- A sequence of hook invocations, threading the store. -/
def runHook (sendHint : Bool) (rules : RulesMap) (nextMidnight : Int → Int) :
    Store → List Invocation → Store
  | store, [] => store
  | store, inv :: rest =>
    runHook sendHint rules nextMidnight
      (beforeExecute sendHint rules store inv.session inv.chain inv.now
        nextMidnight).2 rest

/-- Concrete session fixture used by witnesses. -/
def sessW : Session :=
  { userId := some "u", channelId := some "c", platform := some "p" }

/-- Concrete next-midnight fixture used by witnesses. -/
def nmW : Int → Int := fun _ => 1000000

/-! ### Basic lemmas about the embedded operations -/

lemma mapSet_same {α : Type} (m : String → Option α) (k : String) (v : α) :
    mapSet m k v k = some v := by
  simp [mapSet]

lemma mapSet_other {α : Type} (m : String → Option α) (k : String) (v : α)
    (q : String) (h : q ≠ k) : mapSet m k v q = m q := by
  simp [mapSet, h]

lemma find?_append {α : Type} (l1 l2 : List α) (p : α → Bool) :
    (l1 ++ l2).find? p = ((l1.find? p).orElse (fun _ => l2.find? p)) := by
  induction l1 with
  | nil => simp [Option.orElse]
  | cons a l ih =>
    by_cases h : p a <;> simp [List.find?, h, ih, Option.orElse]

lemma buildRules_foldl (L : List CommandFilterRule) (m : RulesMap)
    (k : String) :
    (L.foldl (fun m r => mapSet m (ruleKey r) r.action.toAction) m) k =
      match L.reverse.find? (fun r => ruleKey r == k) with
      | some r => some r.action.toAction
      | none => m k := by
  induction L generalizing m with
  | nil => simp
  | cons r rest ih =>
    simp only [List.foldl_cons, List.reverse_cons, find?_append, ih]
    cases h : rest.reverse.find? (fun r => ruleKey r == k) with
    | some r1 => simp [Option.orElse]
    | none =>
      by_cases hk : ruleKey r = k
      · simp [Option.orElse, List.find?, hk, mapSet]
      · have hk' : (ruleKey r == k) = false := by
          simp [hk]
        simp [Option.orElse, List.find?, hk', mapSet, Ne.symm hk]

/-- The `rules` map lookup equals the last configured entry whose key
matches. -/
lemma buildRules_apply (L : List CommandFilterRule) (k : String) :
    buildRules L k =
      match L.reverse.find? (fun r => ruleKey r == k) with
      | some r => some r.action.toAction
      | none => none := by
  have h := buildRules_foldl L mapEmpty k
  simpa [buildRules, mapEmpty] using h

/-- Unfolding of `checkRateLimit` when the scope key is available and
non-empty. -/
lemma crl_eq (store : Store) (s : Session) (cname : String) (sc : Scope)
    (key : String) (minI maxD now : Int) (nm : Int → Int)
    (hkey : getRecordKey s sc = some key) (hne : ¬ key = "") :
    checkRateLimit store s cname sc minI maxD now nm =
      (if cooldownHit ((store (recId sc key cname)).getD {}) minI now then
        (some (cooldownMsg (ceilDiv
          ((((store (recId sc key cname)).getD {}).cooldownExpiresAt.getD 0)
            - now) 1000)), store)
      else if 0 < maxD ∧ jsLeZero
          (quotaReset ((store (recId sc key cname)).getD {}) maxD now
            nm).dailyUsesLeft then
        (some quotaMsg,
         if (store (recId sc key cname)).isSome then
           mapSet store (recId sc key cname)
             (quotaReset ((store (recId sc key cname)).getD {}) maxD now nm)
         else store)
      else
        (none, mapSet store (recId sc key cname)
          (commitDaily
            (commitCooldown
              (quotaReset ((store (recId sc key cname)).getD {}) maxD now nm)
              minI now) maxD))) := by
  unfold checkRateLimit
  rw [hkey]
  simp only [hne, if_false, ite_false]

/-- When the scope key is unavailable, `checkRateLimit` does nothing. -/
lemma crl_no_key (store : Store) (s : Session) (cname : String) (sc : Scope)
    (minI maxD now : Int) (nm : Int → Int)
    (hkey : getRecordKey s sc = none) :
    checkRateLimit store s cname sc minI maxD now nm = (none, store) := by
  unfold checkRateLimit
  rw [hkey]

lemma walkChain_nil (sendHint : Bool) (store : Store) (s : Session)
    (now : Int) (nm : Int → Int) :
    walkChain sendHint store s [] now nm = (none, store) := rfl

lemma walkChain_cons (sendHint : Bool) (store : Store) (s : Session)
    (l : CmdLevel) (rest : List CmdLevel) (now : Int) (nm : Int → Int) :
    walkChain sendHint store s (l :: rest) now nm =
      (if l.minInterval = 0 ∧ l.maxDayUsage = 0 then
        walkChain sendHint store s rest now nm
      else
        match checkRateLimit store s (replaceDots l.name) l.scope
          l.minInterval l.maxDayUsage now nm with
        | (some msg, store1) =>
          if msg = "" then walkChain sendHint store1 s rest now nm
          else (some (if sendHint then msg else ""), store1)
        | (none, store1) => walkChain sendHint store1 s rest now nm) := rfl

lemma walkChain_cons_skip {sendHint : Bool} {store : Store} {s : Session}
    {l : CmdLevel} {rest : List CmdLevel} {now : Int} {nm : Int → Int}
    (hskip : l.minInterval = 0 ∧ l.maxDayUsage = 0) :
    walkChain sendHint store s (l :: rest) now nm =
      walkChain sendHint store s rest now nm := by
  rw [walkChain_cons, if_pos hskip]

lemma walkChain_cons_deny {sendHint : Bool} {store : Store} {s : Session}
    {l : CmdLevel} {rest : List CmdLevel} {now : Int} {nm : Int → Int}
    {msg : String} {store1 : Store}
    (hactive : ¬(l.minInterval = 0 ∧ l.maxDayUsage = 0)) (hmsg : msg ≠ "")
    (hcheck : checkRateLimit store s (replaceDots l.name) l.scope
      l.minInterval l.maxDayUsage now nm = (some msg, store1)) :
    walkChain sendHint store s (l :: rest) now nm =
      (some (if sendHint then msg else ""), store1) := by
  rw [walkChain_cons, if_neg hactive, hcheck]
  simp [hmsg]

lemma walkChain_cons_allow {sendHint : Bool} {store : Store} {s : Session}
    {l : CmdLevel} {rest : List CmdLevel} {now : Int} {nm : Int → Int}
    {store1 : Store}
    (hactive : ¬(l.minInterval = 0 ∧ l.maxDayUsage = 0))
    (hcheck : checkRateLimit store s (replaceDots l.name) l.scope
      l.minInterval l.maxDayUsage now nm = (none, store1)) :
    walkChain sendHint store s (l :: rest) now nm =
      walkChain sendHint store1 s rest now nm := by
  rw [walkChain_cons, if_neg hactive, hcheck]

lemma runCalls_nil (nm : Int → Int) (s : Session) (cname : String)
    (sc : Scope) (minI maxD : Int) (store : Store) :
    runCalls nm s cname sc minI maxD store [] = ([], store) := rfl

lemma runCalls_cons (nm : Int → Int) (s : Session) (cname : String)
    (sc : Scope) (minI maxD : Int) (store : Store) (t : Int)
    (ts : List Int) :
    runCalls nm s cname sc minI maxD store (t :: ts) =
      ((checkRateLimit store s cname sc minI maxD t nm).1 ::
        (runCalls nm s cname sc minI maxD
          (checkRateLimit store s cname sc minI maxD t nm).2 ts).1,
       (runCalls nm s cname sc minI maxD
          (checkRateLimit store s cname sc minI maxD t nm).2 ts).2) := rfl

/-- Every denial produced by `checkRateLimit` is either the cooldown
denial (requiring `minInterval > 0` and a stored future expiry) or the
quota denial (requiring `maxDayUsage > 0`). -/
lemma checkRateLimit_some {store : Store} {s : Session} {cname : String}
    {sc : Scope} {minI maxD now : Int} {nm : Int → Int} {msg : String}
    (h : (checkRateLimit store s cname sc minI maxD now nm).1 = some msg) :
    ∃ key, getRecordKey s sc = some key ∧ key ≠ "" ∧
      ((0 < minI ∧ ∃ e,
          ((store (recId sc key cname)).getD {}).cooldownExpiresAt = some e
          ∧ e ≠ 0 ∧ now < e ∧ msg = cooldownMsg (ceilDiv (e - now) 1000))
       ∨ (0 < maxD ∧ msg = quotaMsg)) := by
  cases hk : getRecordKey s sc with
  | none =>
    rw [crl_no_key store s cname sc minI maxD now nm hk] at h
    exact absurd h (by simp)
  | some key =>
    by_cases hne : key = ""
    · unfold checkRateLimit at h
      rw [hk] at h
      simp [hne] at h
    · rw [crl_eq store s cname sc key minI maxD now nm hk hne] at h
      refine ⟨key, rfl, hne, ?_⟩
      by_cases hc :
          cooldownHit ((store (recId sc key cname)).getD {}) minI now
      · rw [if_pos hc] at h
        left
        unfold cooldownHit at hc
        cases he :
            ((store (recId sc key cname)).getD {}).cooldownExpiresAt with
        | none => rw [he] at hc; simp at hc
        | some e =>
          rw [he] at hc
          simp only [Bool.and_eq_true, decide_eq_true_eq, bne_iff_ne,
            ne_eq] at hc
          obtain ⟨hmin, hne0, hlt⟩ := hc
          refine ⟨hmin, e, rfl, hne0, hlt, ?_⟩
          rw [he] at h
          simp only [Option.getD_some] at h
          exact (Option.some.inj h).symm
      · rw [if_neg hc] at h
        by_cases hq : 0 < maxD ∧ jsLeZero
            (quotaReset ((store (recId sc key cname)).getD {}) maxD now
              nm).dailyUsesLeft
        · rw [if_pos hq] at h
          right
          exact ⟨hq.1, (Option.some.inj h).symm⟩
        · rw [if_neg hq] at h
          exact absurd h (by simp)

lemma commitDaily_cooldown (r : UsageRecord) (maxD : Int) :
    (commitDaily r maxD).cooldownExpiresAt = r.cooldownExpiresAt := by
  unfold commitDaily
  split <;> rfl

lemma commitCooldown_cooldown_pos (r : UsageRecord) {minI : Int}
    (h : 0 < minI) (now : Int) :
    (commitCooldown r minI now).cooldownExpiresAt =
      some (now + minI * 1000) := by
  unfold commitCooldown
  rw [if_pos h]

/-! ### Claim C1 (corrected) -/

/-- C1, counterexample.  With a child command (`minInterval = 0`,
`maxDayUsage = 5`) and a parent command with the same active limit, a
single admitted invocation evaluates the parent level as well: the call
is admitted and the ancestor's usage record is created and decremented,
refuting the claim that the walk stops after the nearest active level
whether it denied or admitted. -/
theorem firstMatchStop_counterexample :
    (beforeExecute true (fun _ => none) mapEmpty sessW
      [⟨"child", 0, 5, Scope.user⟩, ⟨"parent", 0, 5, Scope.user⟩] 0 nmW).1
        = none
    ∧ (beforeExecute true (fun _ => none) mapEmpty sessW
      [⟨"child", 0, 5, Scope.user⟩, ⟨"parent", 0, 5, Scope.user⟩] 0
        nmW).2 "user:u:parent"
        = some { cooldownExpiresAt := none,
                 dailyUsesLeft := some (JsNum.int 4),
                 dailyResetAt := some 1000000 } := by
  constructor
  · decide
  · decide

/-- C1 (amended): the walk stops at a level with an active limit only
when that level denies the call; a denial is final (the returned pair is
independent of the remaining ancestors), while an admitted call updates
the store and the walk continues with the parent chain. -/
theorem walk_stops_only_on_denial (sendHint : Bool) (store : Store)
    (s : Session) (l : CmdLevel) (rest : List CmdLevel) (now : Int)
    (nm : Int → Int)
    (hactive : ¬(l.minInterval = 0 ∧ l.maxDayUsage = 0)) :
    (∀ (msg : String) (store1 : Store), msg ≠ "" →
      checkRateLimit store s (replaceDots l.name) l.scope l.minInterval
        l.maxDayUsage now nm = (some msg, store1) →
      walkChain sendHint store s (l :: rest) now nm =
        (some (if sendHint then msg else ""), store1))
    ∧ (∀ store1 : Store,
      checkRateLimit store s (replaceDots l.name) l.scope l.minInterval
        l.maxDayUsage now nm = (none, store1) →
      walkChain sendHint store s (l :: rest) now nm =
        walkChain sendHint store1 s rest now nm) := by
  constructor
  · intro msg store1 hmsg hcheck
    exact walkChain_cons_deny hactive hmsg hcheck
  · intro store1 hcheck
    exact walkChain_cons_allow hactive hcheck

/-- C1, witness for the amended theorem: a concrete admitted call at an
active level continues the walk with the updated store. -/
theorem walk_stops_only_on_denial_witness :
    walkChain true mapEmpty sessW [⟨"child", 0, 5, Scope.user⟩] 0 nmW =
      walkChain true
        (checkRateLimit mapEmpty sessW "child" Scope.user 0 5 0 nmW).2
        sessW [] 0 nmW :=
  (walk_stops_only_on_denial true mapEmpty sessW ⟨"child", 0, 5, Scope.user⟩
    [] 0 nmW (by decide)).2
    (checkRateLimit mapEmpty sessW "child" Scope.user 0 5 0 nmW).2 rfl

/-! ### Claim C5 (confirmed) -/

/-- C5: the effective action is decided by the last configured rule whose
key exactly matches `user:<userId>`, regardless of entry order and of any
channel rules; otherwise by the last rule whose key exactly matches
`channel:<channelId>`; otherwise it is `limit`. -/
theorem rule_precedence (L : List CommandFilterRule) (s : Session) :
    getEffectiveAction (buildRules L) s =
      match L.reverse.find?
        (fun r => ruleKey r == "user:" ++ jsShow s.userId) with
      | some r => r.action.toAction
      | none =>
        match L.reverse.find?
          (fun r => ruleKey r == "channel:" ++ jsShow s.channelId) with
        | some r => r.action.toAction
        | none => Action.limit := by
  unfold getEffectiveAction
  rw [buildRules_apply, buildRules_apply]
  cases h1 : L.reverse.find?
      (fun r => ruleKey r == "user:" ++ jsShow s.userId) with
  | some r => rfl
  | none =>
    cases h2 : L.reverse.find?
        (fun r => ruleKey r == "channel:" ++ jsShow s.channelId) with
    | some r => rfl
    | none => rfl

/-! ### Claim C6 (confirmed) -/

/-- C6: when the effective rule action is `ignore`, every invocation is
allowed unconditionally (the hook returns no value) and the store is left
untouched, whatever the command chain configures. -/
theorem ignore_short_circuits (sendHint : Bool) (rules : RulesMap)
    (store : Store) (s : Session) (chain : List CmdLevel) (now : Int)
    (nm : Int → Int) (h : getEffectiveAction rules s = Action.ignore) :
    beforeExecute sendHint rules store s chain now nm = (none, store) := by
  unfold beforeExecute
  rw [h]

/-- C6, witness: a concrete user with an `ignore` rule invoking a command
with an aggressive limit is allowed and nothing is recorded. -/
theorem ignore_short_circuits_witness :
    getEffectiveAction
      (buildRules [⟨RuleType.user, "u", FilterAction.ignore⟩]) sessW
      = Action.ignore
    ∧ beforeExecute true
        (buildRules [⟨RuleType.user, "u", FilterAction.ignore⟩]) mapEmpty
        sessW [⟨"cmd", 60, 1, Scope.user⟩] 0 nmW = (none, mapEmpty) :=
  ⟨by decide,
   ignore_short_circuits true
     (buildRules [⟨RuleType.user, "u", FilterAction.ignore⟩]) mapEmpty sessW
     [⟨"cmd", 60, 1, Scope.user⟩] 0 nmW (by decide)⟩

/-! ### Claim C7 (confirmed) -/

/-- C7: a `block` rule denies with the empty string whatever `sendHint`
is; a denial produced by a rate-limit check returns the hint produced at
the denying step when `sendHint` is set and the empty string otherwise. -/
theorem block_silent_and_hint_flag (rules : RulesMap) (store : Store)
    (s : Session) (now : Int) (nm : Int → Int) :
    (∀ (sendHint : Bool) (chain : List CmdLevel),
      getEffectiveAction rules s = Action.block →
      beforeExecute sendHint rules store s chain now nm = (some "", store))
    ∧ (∀ (sendHint : Bool) (l : CmdLevel) (rest : List CmdLevel)
        (msg : String) (store1 : Store),
      getEffectiveAction rules s = Action.limit →
      ¬(l.minInterval = 0 ∧ l.maxDayUsage = 0) →
      msg ≠ "" →
      checkRateLimit store s (replaceDots l.name) l.scope l.minInterval
        l.maxDayUsage now nm = (some msg, store1) →
      beforeExecute sendHint rules store s (l :: rest) now nm =
        (some (if sendHint then msg else ""), store1)) := by
  constructor
  · intro sendHint chain h
    unfold beforeExecute
    rw [h]
  · intro sendHint l rest msg store1 h hactive hmsg hcheck
    unfold beforeExecute
    rw [h]
    exact walkChain_cons_deny hactive hmsg hcheck

/-- C7, witness: a concrete blocked user is denied with the empty string
even with `sendHint` on, and a concrete quota denial returns the hint
with `sendHint` on. -/
theorem block_silent_and_hint_flag_witness :
    beforeExecute true
      (buildRules [⟨RuleType.user, "u", FilterAction.block⟩]) mapEmpty
      sessW [] 0 nmW = (some "", mapEmpty)
    ∧ beforeExecute true (fun _ => none)
        (mapSet mapEmpty "user:u:cmd"
          { cooldownExpiresAt := none,
            dailyUsesLeft := some (JsNum.int 0),
            dailyResetAt := some 1000000 })
        sessW [⟨"cmd", 0, 3, Scope.user⟩] 0 nmW =
        (some (if true then quotaMsg else ""),
         (checkRateLimit
          (mapSet mapEmpty "user:u:cmd"
            { cooldownExpiresAt := none,
              dailyUsesLeft := some (JsNum.int 0),
              dailyResetAt := some 1000000 })
          sessW "cmd" Scope.user 0 3 0 nmW).2) := by
  have h := block_silent_and_hint_flag
    (buildRules [⟨RuleType.user, "u", FilterAction.block⟩]) mapEmpty sessW
    0 nmW
  have h2 := block_silent_and_hint_flag (fun _ => none)
    (mapSet mapEmpty "user:u:cmd"
      { cooldownExpiresAt := none,
        dailyUsesLeft := some (JsNum.int 0),
        dailyResetAt := some 1000000 })
    sessW 0 nmW
  refine ⟨h.1 true [] (by decide), ?_⟩
  exact h2.2 true ⟨"cmd", 0, 3, Scope.user⟩ [] quotaMsg _ (by decide)
    (by decide) (by decide) rfl

/-! ### Claim C9 (confirmed) -/

/-- C9: when the session lacks the identifier selected by the resolved
scope, `checkRateLimit` returns no denial and leaves the store unchanged,
and the chain walk proceeds to the parent level unaffected. -/
theorem absent_key_skips_level (store : Store) (s : Session)
    (cname : String) (sc : Scope) (minI maxD now : Int) (nm : Int → Int)
    (hkey : getRecordKey s sc = none) :
    checkRateLimit store s cname sc minI maxD now nm = (none, store)
    ∧ ∀ (sendHint : Bool) (l : CmdLevel) (rest : List CmdLevel),
        l.scope = sc →
        walkChain sendHint store s (l :: rest) now nm =
          walkChain sendHint store s rest now nm := by
  refine ⟨crl_no_key store s cname sc minI maxD now nm hkey, ?_⟩
  intro sendHint l rest hsc
  by_cases hact : l.minInterval = 0 ∧ l.maxDayUsage = 0
  · exact walkChain_cons_skip hact
  · apply walkChain_cons_allow hact
    rw [hsc]
    exact crl_no_key store s (replaceDots l.name) sc l.minInterval
      l.maxDayUsage now nm hkey

/-- C9, witness: a private-message-like session with no channel
identifier is not limited at a channel-scoped level, nothing is recorded,
and the walk moves on. -/
theorem absent_key_skips_level_witness :
    checkRateLimit mapEmpty ⟨some "u", none, some "p"⟩ "cmd" Scope.channel
      5 5 0 nmW = (none, mapEmpty)
    ∧ walkChain true mapEmpty ⟨some "u", none, some "p"⟩
        [⟨"cmd", 5, 5, Scope.channel⟩] 0 nmW =
      walkChain true mapEmpty ⟨some "u", none, some "p"⟩ [] 0 nmW := by
  have h := absent_key_skips_level mapEmpty ⟨some "u", none, some "p"⟩
    "cmd" Scope.channel 5 5 0 nmW rfl
  exact ⟨h.1, h.2 true ⟨"cmd", 5, 5, Scope.channel⟩ [] rfl⟩

/-! ### Quota-mode step lemmas (minInterval = 0) -/

/-- With `minInterval = 0` and a due window (no deadline recorded, a zero
deadline, or a strictly passed deadline), a call resets the window to
`maxDayUsage` and is admitted with one use consumed. -/
lemma quota_step_admit_reset {store : Store} {s : Session} {cname : String}
    {sc : Scope} {key : String} {K t : Int} {nm : Int → Int}
    {r : UsageRecord}
    (hkey : getRecordKey s sc = some key) (hne : key ≠ "") (hK : 0 < K)
    (hrec : (store (recId sc key cname)).getD {} = r)
    (hdue : resetDue r t = true) :
    checkRateLimit store s cname sc 0 K t nm =
      (none, mapSet store (recId sc key cname)
        { r with dailyResetAt := some (nm t),
                 dailyUsesLeft := some (JsNum.int (K - 1)) }) := by
  rw [crl_eq store s cname sc key 0 K t nm hkey hne, hrec]
  have hcool : cooldownHit r 0 t = false := by
    simp [cooldownHit]
  rw [if_neg (by rw [hcool]; simp)]
  have hq : quotaReset r K t nm =
      { r with dailyResetAt := some (nm t),
               dailyUsesLeft := some (JsNum.int K) } := by
    unfold quotaReset
    rw [if_pos hK, if_pos hdue]
  rw [hq]
  have hle : jsLeZero (some (JsNum.int K)) = false := by
    simp [jsLeZero]
    omega
  rw [if_neg (by simp [hle])]
  have hcc : commitCooldown
      { r with dailyResetAt := some (nm t),
               dailyUsesLeft := some (JsNum.int K) } 0 t =
      { r with dailyResetAt := some (nm t),
               dailyUsesLeft := some (JsNum.int K) } := by
    unfold commitCooldown
    rw [if_neg (by omega)]
  rw [hcc]
  have hcd : commitDaily
      { r with dailyResetAt := some (nm t),
               dailyUsesLeft := some (JsNum.int K) } K =
      { r with dailyResetAt := some (nm t),
               dailyUsesLeft := some (JsNum.int (K - 1)) } := by
    unfold commitDaily
    rw [if_pos hK]
    rfl
  rw [hcd]

/-- With `minInterval = 0`, inside an open window with a positive
remaining count, a call is admitted and the count decrements. -/
lemma quota_step_admit_window {store : Store} {s : Session}
    {cname : String} {sc : Scope} {key : String} {K D t m : Int}
    {nm : Int → Int}
    (hkey : getRecordKey s sc = some key) (hne : key ≠ "") (hK : 0 < K)
    (hm : 0 < m) (hD : D ≠ 0) (ht : t ≤ D)
    (hrec : (store (recId sc key cname)).getD {} =
      ⟨none, some (JsNum.int m), some D⟩) :
    checkRateLimit store s cname sc 0 K t nm =
      (none, mapSet store (recId sc key cname)
        ⟨none, some (JsNum.int (m - 1)), some D⟩) := by
  rw [crl_eq store s cname sc key 0 K t nm hkey hne, hrec]
  rw [if_neg (by simp [cooldownHit])]
  have hdue : resetDue ⟨none, some (JsNum.int m), some D⟩ t = false := by
    simp [resetDue]
    omega
  have hq : quotaReset ⟨none, some (JsNum.int m), some D⟩ K t nm =
      ⟨none, some (JsNum.int m), some D⟩ := by
    unfold quotaReset
    rw [if_pos hK, if_neg (by rw [hdue]; simp)]
  rw [hq]
  rw [if_neg (by simp [jsLeZero]; omega)]
  have hcc : commitCooldown ⟨none, some (JsNum.int m), some D⟩ 0 t =
      ⟨none, some (JsNum.int m), some D⟩ := by
    unfold commitCooldown
    rw [if_neg (by omega)]
  rw [hcc]
  have hcd : commitDaily ⟨none, some (JsNum.int m), some D⟩ K =
      ⟨none, some (JsNum.int (m - 1)), some D⟩ := by
    unfold commitDaily
    rw [if_pos hK]
    rfl
  rw [hcd]

/-- With `minInterval = 0`, inside an open window with zero remaining
uses, a call is denied with the quota message and the stored record is
unchanged in value. -/
lemma quota_step_deny_window {store : Store} {s : Session}
    {cname : String} {sc : Scope} {key : String} {K D t : Int}
    {nm : Int → Int}
    (hkey : getRecordKey s sc = some key) (hne : key ≠ "") (hK : 0 < K)
    (hD : D ≠ 0) (ht : t ≤ D)
    (hrec : store (recId sc key cname) =
      some ⟨none, some (JsNum.int 0), some D⟩) :
    checkRateLimit store s cname sc 0 K t nm =
      (some quotaMsg, mapSet store (recId sc key cname)
        ⟨none, some (JsNum.int 0), some D⟩) := by
  have hrec2 : (store (recId sc key cname)).getD {} =
      ⟨none, some (JsNum.int 0), some D⟩ := by rw [hrec]; rfl
  rw [crl_eq store s cname sc key 0 K t nm hkey hne, hrec2]
  rw [if_neg (by simp [cooldownHit])]
  have hdue : resetDue ⟨none, some (JsNum.int 0), some D⟩ t = false := by
    simp [resetDue]
    omega
  have hq : quotaReset ⟨none, some (JsNum.int 0), some D⟩ K t nm =
      ⟨none, some (JsNum.int 0), some D⟩ := by
    unfold quotaReset
    rw [if_pos hK, if_neg (by rw [hdue]; simp)]
  rw [hq]
  rw [if_pos ⟨hK, by simp [jsLeZero]⟩]
  rw [if_pos (by rw [hrec]; rfl)]

lemma range_map_succ_cons {α : Type} (n : Nat) (f g : Nat → α)
    (h0 : ∀ i, f (i + 1) = g i) :
    (List.range (n + 1)).map f = f 0 :: (List.range n).map g := by
  rw [List.range_succ_eq_map, List.map_cons, List.map_map]
  have hfg : f ∘ Nat.succ = g := funext h0
  rw [hfg]

/-- Inside one open window, starting from a record with `m` remaining
uses, the next `m` calls are admitted and all later calls are denied with
the quota message; the stored count ends at `m - min n m`. -/
lemma quota_run_window (nm : Int → Int) (s : Session) (cname : String)
    (sc : Scope) (key : String)
    (hkey : getRecordKey s sc = some key) (hne : key ≠ "")
    (K D : Int) (hK : 0 < K) (hD : D ≠ 0) :
    ∀ (ts : List Int) (store : Store) (m : Int), 0 ≤ m →
      store (recId sc key cname) =
        some ⟨none, some (JsNum.int m), some D⟩ →
      (∀ t ∈ ts, t ≤ D) →
      (runCalls nm s cname sc 0 K store ts).1 =
        (List.range ts.length).map
          (fun i : Nat => if (i : Int) < m then (none : Option String)
            else some quotaMsg)
      ∧ (runCalls nm s cname sc 0 K store ts).2 (recId sc key cname) =
        some ⟨none, some (JsNum.int (m - min (ts.length : Int) m)),
          some D⟩ := by
  intro ts
  induction ts with
  | nil =>
    intro store m hm hrec hin
    rw [runCalls_nil]
    dsimp only
    refine ⟨by simp, ?_⟩
    have harith : m - min ((([] : List Int).length : Int)) m = m := by
      simp only [List.length_nil, Nat.cast_zero]
      omega
    rw [harith, hrec]
  | cons t ts ih =>
    intro store m hm hrec hin
    have ht : t ≤ D := hin t (by simp)
    have hin2 : ∀ u ∈ ts, u ≤ D := fun u hu => hin u (by simp [hu])
    rcases lt_or_eq_of_le hm with hm1 | hm0
    · -- m > 0 : admitted, count decrements
      have hgd : (store (recId sc key cname)).getD {} =
          ⟨none, some (JsNum.int m), some D⟩ := by rw [hrec]; rfl
      have hstep := @quota_step_admit_window store s cname sc key K D t m
        nm hkey hne hK hm1 hD ht hgd
      rw [runCalls_cons, hstep]
      have hrec2 : mapSet store (recId sc key cname)
          ⟨none, some (JsNum.int (m - 1)), some D⟩ (recId sc key cname) =
          some ⟨none, some (JsNum.int (m - 1)), some D⟩ :=
        mapSet_same _ _ _
      obtain ⟨hres, hst⟩ := ih _ (m - 1) (by omega) hrec2 hin2
      constructor
      · simp only [hres, List.length_cons]
        rw [range_map_succ_cons ts.length
          (fun i => if (i : Int) < m then (none : Option String)
            else some quotaMsg)
          (fun i => if (i : Int) < m - 1 then (none : Option String)
            else some quotaMsg)
          (fun i => if_congr (by push_cast; omega) rfl rfl)]
        rw [if_pos (by omega)]
      · have harith : m - min (((t :: ts).length : Int)) m =
            (m - 1) - min ((ts.length : Int)) (m - 1) := by
          simp only [List.length_cons]
          push_cast
          omega
        rw [harith]
        exact hst
    · -- m = 0 : denied, record value unchanged
      have hm0' : m = 0 := hm0.symm
      subst hm0'
      have hstep := @quota_step_deny_window store s cname sc key K D t nm
        hkey hne hK hD ht hrec
      rw [runCalls_cons, hstep]
      have hrec2 : mapSet store (recId sc key cname)
          ⟨none, some (JsNum.int 0), some D⟩ (recId sc key cname) =
          some ⟨none, some (JsNum.int 0), some D⟩ := mapSet_same _ _ _
      obtain ⟨hres, hst⟩ := ih _ 0 le_rfl hrec2 hin2
      constructor
      · simp only [hres, List.length_cons]
        rw [range_map_succ_cons ts.length
          (fun i => if (i : Int) < 0 then (none : Option String)
            else some quotaMsg)
          (fun i => if (i : Int) < 0 then (none : Option String)
            else some quotaMsg)
          (fun i => rfl)]
        rw [if_neg (by omega)]
      · have harith : (0 : Int) - min (((t :: ts).length : Int)) 0 =
            0 - min ((ts.length : Int)) 0 := by
          omega
        rw [harith]
        exact hst

/-! ### Claim C2 (confirmed) -/

/-- C2: with `maxDayUsage = K > 0` and `minInterval = 0`, starting from a
fresh key, in any same-window sequence of calls exactly the first `K`
calls are admitted, every later call is denied with the quota message,
the stored remaining count is decremented once per admitted call (ending
at `K - min n K`), and the first call strictly past the recorded deadline
is admitted again with the count reset to `K` before its decrement. -/
theorem quota_correctness (nm : Int → Int) (s : Session) (cname : String)
    (sc : Scope) (key : String) (K : Int) (store : Store) (t0 : Int)
    (ts : List Int)
    (hkey : getRecordKey s sc = some key) (hne : key ≠ "") (hK : 0 < K)
    (hfresh : store (recId sc key cname) = none)
    (hD : nm t0 ≠ 0) (hin : ∀ t ∈ ts, t ≤ nm t0) :
    (runCalls nm s cname sc 0 K store (t0 :: ts)).1 =
      (List.range (ts.length + 1)).map
        (fun i : Nat => if (i : Int) < K then (none : Option String)
          else some quotaMsg)
    ∧ (runCalls nm s cname sc 0 K store (t0 :: ts)).2 (recId sc key cname)
      = some ⟨none, some (JsNum.int (K - min ((ts.length : Int) + 1) K)),
          some (nm t0)⟩
    ∧ ∀ u : Int, nm t0 < u →
        checkRateLimit ((runCalls nm s cname sc 0 K store (t0 :: ts)).2)
          s cname sc 0 K u nm =
        (none,
         mapSet ((runCalls nm s cname sc 0 K store (t0 :: ts)).2)
           (recId sc key cname)
           ⟨none, some (JsNum.int (K - 1)), some (nm u)⟩) := by
  have hgd : (store (recId sc key cname)).getD {} = ({} : UsageRecord) :=
    by rw [hfresh]; rfl
  have hstep := @quota_step_admit_reset store s cname sc key K t0 nm
    ({} : UsageRecord) hkey hne hK hgd rfl
  have hstep2 : checkRateLimit store s cname sc 0 K t0 nm =
      (none, mapSet store (recId sc key cname)
        ⟨none, some (JsNum.int (K - 1)), some (nm t0)⟩) := hstep
  have hrec1 : mapSet store (recId sc key cname)
      ⟨none, some (JsNum.int (K - 1)), some (nm t0)⟩ (recId sc key cname)
      = some ⟨none, some (JsNum.int (K - 1)), some (nm t0)⟩ :=
    mapSet_same _ _ _
  obtain ⟨hres, hst⟩ := quota_run_window nm s cname sc key hkey hne K
    (nm t0) hK hD ts _ (K - 1) (by omega) hrec1 hin
  refine ⟨?_, ?_, ?_⟩
  · rw [runCalls_cons, hstep2]
    dsimp only
    rw [hres]
    rw [range_map_succ_cons ts.length
      (fun i : Nat => if (i : Int) < K then (none : Option String)
        else some quotaMsg)
      (fun i : Nat => if (i : Int) < K - 1 then (none : Option String)
        else some quotaMsg)
      (fun i => if_congr (by push_cast; omega) rfl rfl)]
    have hf0 : (if ((0 : Nat) : Int) < K then (none : Option String)
        else some quotaMsg) = none := if_pos (by push_cast; omega)
    rw [hf0]
  · rw [runCalls_cons, hstep2]
    dsimp only
    have harith : K - min ((ts.length : Int) + 1) K =
        (K - 1) - min ((ts.length : Int)) (K - 1) := by omega
    rw [harith]
    exact hst
  · intro u hu
    have hgdF : (((runCalls nm s cname sc 0 K store (t0 :: ts)).2
        (recId sc key cname)).getD {}) =
        ⟨none, some (JsNum.int ((K - 1) - min ((ts.length : Int)) (K - 1))),
          some (nm t0)⟩ := by
      rw [runCalls_cons, hstep2]
      dsimp only
      rw [hst]
      rfl
    have hdueF : resetDue
        ⟨none, some (JsNum.int ((K - 1) - min ((ts.length : Int)) (K - 1))),
          some (nm t0)⟩ u = true := by
      simp only [resetDue, Bool.or_eq_true, beq_iff_eq, decide_eq_true_eq]
      omega
    exact @quota_step_admit_reset _ s cname sc key K u nm _ hkey hne hK
      hgdF hdueF

/-- C2, witness: with `K = 2` and calls at `t = 0, 1, 2`, the first two
calls are admitted and the third is denied; a call past the recorded
deadline is admitted with the count reset to `2` and decremented. -/
theorem quota_correctness_witness :
    (runCalls nmW sessW "cmd" Scope.user 0 2 mapEmpty [0, 1, 2]).1 =
      (List.range ([1, 2].length + 1)).map
        (fun i : Nat => if (i : Int) < 2 then (none : Option String)
          else some quotaMsg)
    ∧ checkRateLimit
        ((runCalls nmW sessW "cmd" Scope.user 0 2 mapEmpty [0, 1, 2]).2)
        sessW "cmd" Scope.user 0 2 1000001 nmW =
      (none,
       mapSet ((runCalls nmW sessW "cmd" Scope.user 0 2 mapEmpty
          [0, 1, 2]).2)
         (recId Scope.user "u" "cmd")
         ⟨none, some (JsNum.int 1), some (nmW 1000001)⟩) := by
  have h := quota_correctness nmW sessW "cmd" Scope.user "u" 2 mapEmpty 0
    [1, 2] rfl (by decide) (by decide) rfl (by decide) (by decide)
  exact ⟨h.1, h.2.2 1000001 (by decide)⟩

/-! ### Claim C3 (confirmed) -/

/-- C3: with `minInterval = N > 0`, an admitted call at time `t` records
`cooldownExpiresAt = t + N` seconds; a call at any `u` before that expiry
is denied with the remaining time rounded up to whole seconds and the
store unchanged; and a call at or after the expiry is never denied by the
cooldown check (any denial is the quota message). -/
theorem cooldown_correctness (store : Store) (s : Session) (cname : String)
    (sc : Scope) (key : String) (N M t : Int) (nm : Int → Int)
    (store1 : Store)
    (hkey : getRecordKey s sc = some key) (hne : key ≠ "")
    (hN : 0 < N) (ht : 0 ≤ t)
    (hadm : checkRateLimit store s cname sc N M t nm = (none, store1)) :
    ((store1 (recId sc key cname)).getD {}).cooldownExpiresAt =
      some (t + N * 1000)
    ∧ (∀ u : Int, u < t + N * 1000 →
        checkRateLimit store1 s cname sc N M u nm =
          (some (cooldownMsg (ceilDiv ((t + N * 1000) - u) 1000)), store1))
    ∧ (∀ u : Int, t + N * 1000 ≤ u → ∀ msg : String,
        (checkRateLimit store1 s cname sc N M u nm).1 = some msg →
        msg = quotaMsg) := by
  rw [crl_eq store s cname sc key N M t nm hkey hne] at hadm
  by_cases hc : cooldownHit ((store (recId sc key cname)).getD {}) N t
  · rw [if_pos hc] at hadm
    exact absurd (congrArg Prod.fst hadm) (by simp)
  · rw [if_neg hc] at hadm
    by_cases hq : 0 < M ∧ jsLeZero
        (quotaReset ((store (recId sc key cname)).getD {}) M t
          nm).dailyUsesLeft
    · rw [if_pos hq] at hadm
      exact absurd (congrArg Prod.fst hadm) (by simp)
    · rw [if_neg hq] at hadm
      have hst : store1 = mapSet store (recId sc key cname)
          (commitDaily
            (commitCooldown
              (quotaReset ((store (recId sc key cname)).getD {}) M t nm)
              N t) M) := (Prod.mk.injEq _ _ _ _ ▸ hadm).2.symm
      have hA : ((store1 (recId sc key cname)).getD {}).cooldownExpiresAt =
          some (t + N * 1000) := by
        rw [hst, mapSet_same, Option.getD_some, commitDaily_cooldown,
          commitCooldown_cooldown_pos _ hN]
      refine ⟨hA, ?_, ?_⟩
      · intro u hu
        have hE0 : t + N * 1000 ≠ 0 := by omega
        have hhit : cooldownHit ((store1 (recId sc key cname)).getD {}) N u
            = true := by
          unfold cooldownHit
          rw [hA]
          simp only [Bool.and_eq_true, decide_eq_true_eq, bne_iff_ne, ne_eq]
          exact ⟨hN, hE0, hu⟩
        rw [crl_eq store1 s cname sc key N M u nm hkey hne, if_pos hhit,
          hA]
        rfl
      · intro u hu msg hmsg
        obtain ⟨key2, hk2, _, hdisj⟩ := checkRateLimit_some hmsg
        have hkk : key2 = key := by
          rw [hkey] at hk2
          exact (Option.some.inj hk2).symm
        rcases hdisj with ⟨_, e, he, _, hlt, _⟩ | ⟨_, hqm⟩
        · rw [hkk, hA] at he
          have h2 : t + N * 1000 = e := Option.some.inj he
          omega
        · exact hqm

/-- C3, witness: after an admitted call with a 60-second interval at
`t = 0`, a call at `t = 10000` ms is denied with a 50-second hint. -/
theorem cooldown_correctness_witness :
    checkRateLimit
      (checkRateLimit mapEmpty sessW "cmd" Scope.user 60 0 0 nmW).2
      sessW "cmd" Scope.user 60 0 10000 nmW =
      (some (cooldownMsg (ceilDiv ((0 + 60 * 1000) - 10000) 1000)),
       (checkRateLimit mapEmpty sessW "cmd" Scope.user 60 0 0 nmW).2) := by
  have h := cooldown_correctness mapEmpty sessW "cmd" Scope.user "u" 60 0 0
    nmW (checkRateLimit mapEmpty sessW "cmd" Scope.user 60 0 0 nmW).2 rfl
    (by decide) (by decide) (by decide) rfl
  exact h.2.1 10000 (by decide)

/-! ### Claim C4 (confirmed) -/

/-- C4: in any sequence of calls, a level with `minInterval = 0` never
produces a cooldown denial (every denial is the quota message), and a
level with `maxDayUsage = 0` never produces a quota denial (every denial
is a cooldown message): zero means disabled, not zero calls allowed. -/
theorem disabled_by_zero (nm : Int → Int) (s : Session) (cname : String)
    (sc : Scope) :
    (∀ (maxD : Int) (store : Store) (times : List Int) (r : Option String),
      r ∈ (runCalls nm s cname sc 0 maxD store times).1 →
      ∀ msg, r = some msg → msg = quotaMsg)
    ∧ (∀ (minI : Int) (store : Store) (times : List Int) (r : Option String),
      r ∈ (runCalls nm s cname sc minI 0 store times).1 →
      ∀ msg, r = some msg → ∃ k, msg = cooldownMsg k) := by
  constructor
  · intro maxD store times
    induction times generalizing store with
    | nil => intro r hr; rw [runCalls_nil] at hr; simp at hr
    | cons t ts ih =>
      intro r hr msg hrm
      rw [runCalls_cons] at hr
      rcases List.mem_cons.mp hr with hr | hr
      · subst hrm
        obtain ⟨_, _, _, hdisj⟩ := checkRateLimit_some hr.symm
        rcases hdisj with ⟨hmin, _⟩ | ⟨_, hqm⟩
        · omega
        · exact hqm
      · exact ih _ r hr msg hrm
  · intro minI store times
    induction times generalizing store with
    | nil => intro r hr; rw [runCalls_nil] at hr; simp at hr
    | cons t ts ih =>
      intro r hr msg hrm
      rw [runCalls_cons] at hr
      rcases List.mem_cons.mp hr with hr | hr
      · subst hrm
        obtain ⟨_, _, _, hdisj⟩ := checkRateLimit_some hr.symm
        rcases hdisj with ⟨_, _, _, _, _, hcm⟩ | ⟨hmax, _⟩
        · exact ⟨_, hcm⟩
        · omega
      · exact ih _ r hr msg hrm

/-- C4, witness: a two-call run with `minInterval = 0` denies the second
call with the quota message, which the theorem classifies. -/
theorem disabled_by_zero_witness :
    (runCalls nmW sessW "cmd" Scope.user 0 1 mapEmpty [0, 1]).1 =
      [none, some quotaMsg]
    ∧ quotaMsg = quotaMsg := by
  refine ⟨by decide, ?_⟩
  exact (disabled_by_zero nmW sessW "cmd" Scope.user).1 1 mapEmpty [0, 1]
    (some quotaMsg) (by decide) quotaMsg rfl

/-! ### Claim C8 (confirmed) -/

/-- C8: negative resolved thresholds never throw (the embedding is total)
and fail open: a negative `minInterval` rules out cooldown denials, a
negative `maxDayUsage` rules out quota denials, and with both negative
the call is always admitted. -/
theorem negative_thresholds_fail_open (store : Store) (s : Session)
    (cname : String) (sc : Scope) (minI maxD now : Int)
    (nm : Int → Int) :
    (minI < 0 → ∀ msg,
      (checkRateLimit store s cname sc minI maxD now nm).1 = some msg →
      msg = quotaMsg)
    ∧ (maxD < 0 → ∀ msg,
      (checkRateLimit store s cname sc minI maxD now nm).1 = some msg →
      ∃ k, msg = cooldownMsg k)
    ∧ (minI < 0 → maxD < 0 →
      (checkRateLimit store s cname sc minI maxD now nm).1 = none) := by
  refine ⟨?_, ?_, ?_⟩
  · intro hmin msg hmsg
    obtain ⟨_, _, _, hdisj⟩ := checkRateLimit_some hmsg
    rcases hdisj with ⟨hpos, _⟩ | ⟨_, hqm⟩
    · omega
    · exact hqm
  · intro hmax msg hmsg
    obtain ⟨_, _, _, hdisj⟩ := checkRateLimit_some hmsg
    rcases hdisj with ⟨_, _, _, _, _, hcm⟩ | ⟨hpos, _⟩
    · exact ⟨_, hcm⟩
    · omega
  · intro hmin hmax
    cases hr : (checkRateLimit store s cname sc minI maxD now nm).1 with
    | none => rfl
    | some msg =>
      obtain ⟨_, _, _, hdisj⟩ := checkRateLimit_some hr
      rcases hdisj with ⟨hpos, _⟩ | ⟨hpos, _⟩ <;> omega

/-- C8, witness: a call with both thresholds negative is admitted. -/
theorem negative_thresholds_fail_open_witness :
    (-1 : Int) < 0 ∧
    (checkRateLimit mapEmpty sessW "cmd" Scope.user (-1) (-1) 0 nmW).1 =
      none :=
  ⟨by decide,
   (negative_thresholds_fail_open mapEmpty sessW "cmd" Scope.user (-1) (-1)
     0 nmW).2.2 (by decide) (by decide)⟩

/-! ### Claim C10 (confirmed): invariant machinery -/

/-- A JS number that is a non-negative integer (in particular, not NaN). -/
def JsNum.nonnegInt : JsNum → Prop
  | JsNum.nan => False
  | JsNum.int n => 0 ≤ n

/-- Record invariant: the remaining daily count, when present, is a
non-negative integer, and a recorded reset deadline implies the count is
present. -/
def GoodRec (r : UsageRecord) : Prop :=
  (∀ m, r.dailyUsesLeft = some m → m.nonnegInt)
  ∧ (r.dailyResetAt ≠ none → r.dailyUsesLeft ≠ none)

/-- Store invariant: every stored record satisfies `GoodRec`. -/
def StoreGood (store : Store) : Prop :=
  ∀ k r, store k = some r → GoodRec r

lemma goodRec_empty : GoodRec {} :=
  ⟨fun _ hm => Option.noConfusion hm, fun h => absurd rfl h⟩

lemma storeGood_empty : StoreGood mapEmpty :=
  fun _ _ h => Option.noConfusion h

lemma storeGood_mapSet {store : Store} {k : String} {r : UsageRecord}
    (hs : StoreGood store) (hr : GoodRec r) :
    StoreGood (mapSet store k r) := by
  intro q r2 hq
  unfold mapSet at hq
  by_cases hqk : q = k
  · rw [if_pos hqk] at hq
    exact (Option.some.inj hq) ▸ hr
  · rw [if_neg hqk] at hq
    exact hs q r2 hq

lemma goodRec_getD {store : Store} (hs : StoreGood store) (k : String) :
    GoodRec ((store k).getD {}) := by
  cases h : store k with
  | none => exact goodRec_empty
  | some r => exact hs k r h

lemma goodRec_quotaReset {r : UsageRecord} (hr : GoodRec r) {maxD : Int}
    (hmax : 0 ≤ maxD) (now : Int) (nm : Int → Int) :
    GoodRec (quotaReset r maxD now nm) := by
  unfold quotaReset
  split
  · rename_i hpos
    split
    · constructor
      · intro m hm
        have hm2 : some (JsNum.int maxD) = some m := hm
        rw [← Option.some.inj hm2]
        exact hmax
      · exact fun _ hcon => Option.noConfusion hcon
    · exact hr
  · exact hr

lemma quotaReset_usesLeft_ne_none {r : UsageRecord} (hr : GoodRec r)
    {maxD : Int} (hpos : 0 < maxD) (now : Int) (nm : Int → Int) :
    (quotaReset r maxD now nm).dailyUsesLeft ≠ none := by
  unfold quotaReset
  rw [if_pos hpos]
  split
  · exact fun h => Option.noConfusion h
  · rename_i hdue
    apply hr.2
    unfold resetDue at hdue
    cases hd : r.dailyResetAt with
    | none => rw [hd] at hdue; simp at hdue
    | some d => simp

lemma commitCooldown_daily (r : UsageRecord) (a b : Int) :
    (commitCooldown r a b).dailyUsesLeft = r.dailyUsesLeft := by
  unfold commitCooldown
  split <;> rfl

lemma commitCooldown_reset (r : UsageRecord) (a b : Int) :
    (commitCooldown r a b).dailyResetAt = r.dailyResetAt := by
  unfold commitCooldown
  split <;> rfl

lemma commitDaily_daily_pos (r : UsageRecord) {maxD : Int} (h : 0 < maxD) :
    (commitDaily r maxD).dailyUsesLeft = jsDec r.dailyUsesLeft := by
  unfold commitDaily
  rw [if_pos h]

lemma commitDaily_reset (r : UsageRecord) (maxD : Int) :
    (commitDaily r maxD).dailyResetAt = r.dailyResetAt := by
  unfold commitDaily
  split <;> rfl

lemma commitDaily_nonpos (r : UsageRecord) {maxD : Int} (h : ¬ 0 < maxD) :
    commitDaily r maxD = r := by
  unfold commitDaily
  rw [if_neg h]

/-- The commit step preserves the record invariant, given that the quota
check did not deny and (when the quota is active) the count is present. -/
lemma goodRec_commit {r1 : UsageRecord} (h1 : GoodRec r1)
    {minI maxD now : Int}
    (hden : ¬(0 < maxD ∧ jsLeZero r1.dailyUsesLeft))
    (hsome : 0 < maxD → r1.dailyUsesLeft ≠ none) :
    GoodRec (commitDaily (commitCooldown r1 minI now) maxD) := by
  by_cases hpos : 0 < maxD
  · cases hu : r1.dailyUsesLeft with
    | none => exact absurd hu (hsome hpos)
    | some m =>
      have hmnn := h1.1 m hu
      cases m with
      | nan => exact absurd hmnn (by simp [JsNum.nonnegInt])
      | int n =>
        have hn : 0 < n := by
          by_contra hcon
          exact hden ⟨hpos, by
            rw [hu]
            simp [jsLeZero]
            omega⟩
        constructor
        · intro m2 hm2
          rw [commitDaily_daily_pos _ hpos, commitCooldown_daily, hu] at hm2
          have hm3 : some (JsNum.int (n - 1)) = some m2 := hm2
          rw [← Option.some.inj hm3]
          show (0 : Int) ≤ n - 1
          omega
        · intro _
          rw [commitDaily_daily_pos _ hpos, commitCooldown_daily, hu]
          simp [jsDec]
  · rw [commitDaily_nonpos _ hpos]
    constructor
    · intro m hm
      rw [commitCooldown_daily] at hm
      exact h1.1 m hm
    · intro hd
      rw [commitCooldown_daily]
      rw [commitCooldown_reset] at hd
      exact h1.2 hd

/-- `checkRateLimit` for an empty scope key does nothing (JS string
truthiness: the empty string is falsy). -/
lemma crl_empty_key (store : Store) (s : Session) (cname : String)
    (sc : Scope) (minI maxD now : Int) (nm : Int → Int)
    (hk : getRecordKey s sc = some "") :
    checkRateLimit store s cname sc minI maxD now nm = (none, store) := by
  unfold checkRateLimit
  rw [hk]
  simp

/-- One `checkRateLimit` call with a non-negative `maxDayUsage` preserves
the store invariant. -/
lemma crl_preserves_good (store : Store) (s : Session) (cname : String)
    (sc : Scope) (minI maxD now : Int) (nm : Int → Int) (hmax : 0 ≤ maxD)
    (hs : StoreGood store) :
    StoreGood (checkRateLimit store s cname sc minI maxD now nm).2 := by
  cases hk : getRecordKey s sc with
  | none =>
    rw [crl_no_key store s cname sc minI maxD now nm hk]
    exact hs
  | some key =>
    by_cases hne : key = ""
    · rw [hne] at hk
      rw [crl_empty_key store s cname sc minI maxD now nm hk]
      exact hs
    · rw [crl_eq store s cname sc key minI maxD now nm hk hne]
      have hrg : GoodRec ((store (recId sc key cname)).getD {}) :=
        goodRec_getD hs _
      by_cases hcool :
          cooldownHit ((store (recId sc key cname)).getD {}) minI now
      · rw [if_pos hcool]
        exact hs
      · rw [if_neg hcool]
        by_cases hden : 0 < maxD ∧ jsLeZero
            (quotaReset ((store (recId sc key cname)).getD {}) maxD now
              nm).dailyUsesLeft
        · rw [if_pos hden]
          dsimp only
          by_cases hexists : (store (recId sc key cname)).isSome
          · rw [if_pos hexists]
            exact storeGood_mapSet hs (goodRec_quotaReset hrg hmax now nm)
          · rw [if_neg hexists]
            exact hs
        · rw [if_neg hden]
          dsimp only
          refine storeGood_mapSet hs
            (goodRec_commit (goodRec_quotaReset hrg hmax now nm) hden ?_)
          intro hpos
          exact quotaReset_usesLeft_ne_none hrg hpos now nm

/-- The chain walk preserves the store invariant when every level's
resolved `maxDayUsage` is non-negative. -/
lemma walkChain_preserves_good (sendHint : Bool) (s : Session) (now : Int)
    (nm : Int → Int) :
    ∀ (chain : List CmdLevel) (store : Store),
      (∀ l ∈ chain, 0 ≤ l.maxDayUsage) → StoreGood store →
      StoreGood (walkChain sendHint store s chain now nm).2 := by
  intro chain
  induction chain with
  | nil =>
    intro store _ hs
    rw [walkChain_nil]
    exact hs
  | cons l rest ih =>
    intro store hpos hs
    have hl : 0 ≤ l.maxDayUsage := hpos l (by simp)
    have hrest : ∀ x ∈ rest, 0 ≤ x.maxDayUsage :=
      fun x hx => hpos x (by simp [hx])
    by_cases hskip : l.minInterval = 0 ∧ l.maxDayUsage = 0
    · rw [walkChain_cons_skip hskip]
      exact ih store hrest hs
    · have hgood1 := crl_preserves_good store s (replaceDots l.name)
        l.scope l.minInterval l.maxDayUsage now nm hl hs
      rcases hres : checkRateLimit store s (replaceDots l.name) l.scope
        l.minInterval l.maxDayUsage now nm with ⟨r, store1⟩
      have hgood2 : StoreGood store1 := by
        rw [hres] at hgood1
        exact hgood1
      cases r with
      | none =>
        rw [walkChain_cons_allow hskip hres]
        exact ih store1 hrest hgood2
      | some msg =>
        by_cases hmsg : msg = ""
        · subst hmsg
          have heq : walkChain sendHint store s (l :: rest) now nm =
              walkChain sendHint store1 s rest now nm := by
            rw [walkChain_cons, if_neg hskip, hres]
            simp
          rw [heq]
          exact ih store1 hrest hgood2
        · rw [walkChain_cons_deny hskip hmsg hres]
          exact hgood2

/-- The hook preserves the store invariant. -/
lemma beforeExecute_preserves_good (sendHint : Bool) (rules : RulesMap)
    (s : Session) (chain : List CmdLevel) (now : Int) (nm : Int → Int)
    (store : Store) (hpos : ∀ l ∈ chain, 0 ≤ l.maxDayUsage)
    (hs : StoreGood store) :
    StoreGood (beforeExecute sendHint rules store s chain now nm).2 := by
  unfold beforeExecute
  cases getEffectiveAction rules s with
  | ignore => exact hs
  | block => exact hs
  | limit =>
    exact walkChain_preserves_good sendHint s now nm chain store hpos hs

lemma runHook_preserves_good (sendHint : Bool) (rules : RulesMap)
    (nm : Int → Int) :
    ∀ (invs : List Invocation) (store : Store),
      (∀ inv ∈ invs, ∀ l ∈ inv.chain, 0 ≤ l.maxDayUsage) →
      StoreGood store →
      StoreGood (runHook sendHint rules nm store invs) := by
  intro invs
  induction invs with
  | nil => intro store _ hs; exact hs
  | cons inv rest ih =>
    intro store hpos hs
    have h1 := beforeExecute_preserves_good sendHint rules inv.session
      inv.chain inv.now nm store (hpos inv (by simp)) hs
    exact ih _ (fun x hx => hpos x (by simp [hx])) h1

/-- C10: provided every resolved `maxDayUsage` in a sequence of hook
invocations is non-negative, every `dailyUsesLeft` present in the store
afterwards is a non-negative integer: it is set to the positive
`maxDayUsage` at each window reset, a call finding it at `0` is denied
before any decrement, and it is decremented only on admitted calls. -/
theorem daily_uses_left_nonneg (sendHint : Bool) (rules : RulesMap)
    (nm : Int → Int) (invs : List Invocation)
    (hpos : ∀ inv ∈ invs, ∀ l ∈ inv.chain, 0 ≤ l.maxDayUsage) :
    ∀ (k : String) (r : UsageRecord),
      runHook sendHint rules nm mapEmpty invs k = some r →
      ∀ m, r.dailyUsesLeft = some m → m.nonnegInt := by
  intro k r hk m hm
  exact ((runHook_preserves_good sendHint rules nm invs mapEmpty hpos
    storeGood_empty) k r hk).1 m hm

/-- C10, witness: after one invocation with `maxDayUsage = 2`, the stored
count is `1`, a non-negative integer. -/
theorem daily_uses_left_nonneg_witness :
    runHook true (fun _ => none) nmW mapEmpty
      [⟨sessW, [⟨"cmd", 0, 2, Scope.user⟩], 0⟩] "user:u:cmd" =
      some ⟨none, some (JsNum.int 1), some 1000000⟩
    ∧ JsNum.nonnegInt (JsNum.int 1) := by
  refine ⟨by decide, ?_⟩
  exact daily_uses_left_nonneg true (fun _ => none) nmW
    [⟨sessW, [⟨"cmd", 0, 2, Scope.user⟩], 0⟩] (by decide) "user:u:cmd"
    ⟨none, some (JsNum.int 1), some 1000000⟩ (by decide) (JsNum.int 1) rfl

end RateLimit
